import Mathlib

/-
A shallow embedding of the ethmonitor chain-tracking engine
(src/ethmonitor/ethmonitor.go).  Block numbers and hashes are modelled as
natural numbers; logs as lists of naturals.  The RPC provider is an oracle
function from hashes to blocks.  The `Chain` cache and the publish `queue`
live in files outside src/, so their operations are modelled from the
spec (sections 4.1 and 4.2) and are marked as such in their doc comments.
-/

namespace Ethmonitor

/-- Event tag of a block in an emitted batch (`Added` / `Removed` in
ethmonitor.go). -/
inductive Event where
  | Added
  | Removed
deriving DecidableEq

/-- The raw data of a chain block as far as the monitor inspects it:
number, hash, parent hash, and whether its logs bloom is the zero bloom. -/
structure RawBlock where
  number : Nat
  hash : Nat
  parentHash : Nat
  bloomZero : Bool
deriving DecidableEq

/-- A monitor `Block`: raw block plus event tag, `OK` flag and attached
logs (`none` models a nil logs slice). -/
structure Block where
  raw : RawBlock
  event : Event
  ok : Bool
  logs : Option (List Nat)
deriving DecidableEq

/-- `&Block{Event: Added, Block: nextBlock}` as built by
`buildCanonicalChain` (ethmonitor.go:298, 330): OK is the zero value
`false`, logs are nil. -/
def mkAdded (rb : RawBlock) : Block :=
  { raw := rb, event := Event.Added, ok := false, logs := none }

/-- The popped-block copy of `buildCanonicalChain` (ethmonitor.go:305-307):
`poppedBlock.Event = Removed; poppedBlock.OK = true`.  The logs field is
left untouched. -/
def toRemoved (b : Block) : Block :=
  { b with event := Event.Removed, ok := true }

/-- Monitor options (the fields the modelled code consults). -/
structure Options where
  pollingInterval : Nat
  startBlockNumber : Option Int
  bootstrap : Bool
  trailNumBlocksBehindHead : Nat
  blockRetentionLimit : Nat
  withLogs : Bool
deriving DecidableEq

/-- `NewMonitor` performs `opts.BlockRetentionLimit += opts.TrailNumBlocksBehindHead`
(ethmonitor.go:112); this is the retention limit the chain cache uses. -/
def effectiveRetention (o : Options) : Nat :=
  o.blockRetentionLimit + o.trailNumBlocksBehindHead

/-- `newQueue(opts.BlockRetentionLimit * 2)` (ethmonitor.go:127), after the
retention adjustment. -/
def queueCapacity (o : Options) : Nat :=
  effectiveRetention o * 2

/-- Errors raised by `Chain.push` (`ErrUnexpectedBlockNumber`,
`ErrUnexpectedParentHash`). -/
inductive PushErr where
  | UnexpectedBlockNumber
  | UnexpectedParentHash
deriving DecidableEq

/-- Modelled from the spec: `Chain.push` (chain.go is not under src/).
Spec 4.1: append `b`; fail with `UnexpectedBlockNumber` when
`b.number != tail.number + 1` (tail present), with `UnexpectedParentHash`
when `b.parentHash != tail.hash`; on an empty chain the first push
establishes the anchor unconditionally; evict the oldest retained block
when the length exceeds retention.  The chain list is oldest-first, the
newest block ("head" in the spec's naming) at the end. -/
def chainPush (retention : Nat) (c : List Block) (b : Block) :
    Except PushErr (List Block) :=
  match c.getLast? with
  | none =>
      let c1 := c ++ [b]
      Except.ok (if retention < c1.length then c1.drop (c1.length - retention) else c1)
  | some t =>
      if b.raw.number ≠ t.raw.number + 1 then Except.error PushErr.UnexpectedBlockNumber
      else if b.raw.parentHash ≠ t.raw.hash then Except.error PushErr.UnexpectedParentHash
      else
        let c1 := c ++ [b]
        Except.ok (if retention < c1.length then c1.drop (c1.length - retention) else c1)

/-- The ways a `buildCanonicalChain` attempt can fail: a failed
`fetchBlockByHash`, a failed `Chain.push`, or exhausted recursion fuel
(the Go recursion is unbounded; any terminating run is reproduced by a
large enough fuel). -/
inductive BuildErr where
  | fetchFail
  | push (e : PushErr)
  | outOfFuel
deriving DecidableEq

/-- `Monitor.buildCanonicalChain` (ethmonitor.go:284-338), with the
provider's `BlockByHash` as the oracle `prov`.  Returns the mutated chain,
the event sink (the Go function returns `events` in every branch, the
chain is mutated through the receiver), and the error if any.  Mirrors the
source: the base case appends the Added event before pushing and returns
the push error as-is; the pop case pops the tail as a Removed copy, walks
to the parent by hash, recurses, and only on success pushes and appends
the Added event for `next`. -/
def buildCanonicalChain (prov : Nat → Option RawBlock) (retention : Nat) :
    Nat → List Block → RawBlock → List Block →
    List Block × List Block × Option BuildErr
  | 0, c, _, events => (c, events, some BuildErr.outOfFuel)
  | fuel + 1, c, next, events =>
    match c.getLast? with
    | none =>
      (match chainPush retention c (mkAdded next) with
       | Except.ok c' => (c', events ++ [mkAdded next], none)
       | Except.error e => (c, events ++ [mkAdded next], some (BuildErr.push e)))
    | some headBlock =>
      if next.parentHash = headBlock.raw.hash then
        (match chainPush retention c (mkAdded next) with
         | Except.ok c' => (c', events ++ [mkAdded next], none)
         | Except.error e => (c, events ++ [mkAdded next], some (BuildErr.push e)))
      else
        match prov next.parentHash with
        | none => (c.dropLast, events ++ [toRemoved headBlock], some BuildErr.fetchFail)
        | some parent =>
          match buildCanonicalChain prov retention fuel c.dropLast parent
              (events ++ [toRemoved headBlock]) with
          | (c2, evs2, some e) => (c2, evs2, some e)
          | (c2, evs2, none) =>
            match chainPush retention c2 (mkAdded next) with
            | Except.error e => (c2, evs2, some (BuildErr.push e))
            | Except.ok c3 => (c3, evs2 ++ [mkAdded next], none)

/-- One block of `Monitor.addLogs` (ethmonitor.go:340-398).  `logsOf` is
the provider's `FilterLogs` restricted to a block hash: `none` models a
failed call, `some logs` a successful one.  A block that is already OK is
skipped; a Removed block is marked OK without fetching; otherwise logs are
attached when the call succeeds and either returned logs are non-empty or
the block's bloom is zero, else the block is marked for backfilling. -/
def addLogsBlock (logsOf : Nat → Option (List Nat)) (b : Block) : Block :=
  if b.ok then b
  else if b.event = Event.Removed then { b with ok := true }
  else
    match logsOf b.raw.hash with
    | some logs =>
        if 0 < logs.length ∨ b.raw.bloomZero then { b with logs := some logs, ok := true }
        else { b with logs := none, ok := false }
    | none => { b with logs := none, ok := false }

/-- The per-batch log handling of the monitor loop (ethmonitor.go:260-268):
with `WithLogs` the batch goes through `addLogs`; otherwise each block's
logs are nilled out and `OK` is set.  (The `backfillChainLogs` sweep
re-runs `addLogs` on still-failed chain blocks; with a fixed `logsOf`
oracle per iteration it is idempotent and does not change the batch
beyond what `addLogs` already did.) -/
def processEvents (withLogs : Bool) (logsOf : Nat → Option (List Nat))
    (events : List Block) : List Block :=
  if withLogs then events.map (addLogsBlock logsOf)
  else events.map (fun b => { b with logs := none, ok := true })

/-- The key of a batch in the publish queue: the highest block number in
the batch (spec 4.2: "keyed by the highest block number in each batch"). -/
def batchKey (batch : List Block) : Nat :=
  batch.foldr (fun b m => max b.raw.number m) 0

/-- Modelled from the spec: `queue.enqueue` (queue.go is not under src/).
Spec 4.2: append; fail with `QueueFull` when at capacity. -/
def enqueue (cap : Nat) (q : List (List Block)) (batch : List Block) :
    Except Unit (List (List Block)) :=
  if cap ≤ q.length then Except.error () else Except.ok (q ++ [batch])

/-- Modelled from the spec: `queue.dequeue` (queue.go is not under src/).
Spec 4.2: return the concatenation of all leading batches whose top block
number is at most `maxBlockNum`, or the single oldest batch if
`maxBlockNum == 0`.  Returns the released concatenation (`none` when
nothing is released, the `ok=false` case in Go) and the remaining queue. -/
def dequeue (q : List (List Block)) (maxBlockNum : Nat) :
    Option (List Block) × List (List Block) :=
  if maxBlockNum = 0 then
    match q with
    | [] => (none, [])
    | batch :: rest => (some batch, rest)
  else
    if (q.takeWhile (fun batch => batchKey batch ≤ maxBlockNum)).isEmpty then
      (none, q.dropWhile (fun batch => batchKey batch ≤ maxBlockNum))
    else
      (some (q.takeWhile (fun batch => batchKey batch ≤ maxBlockNum)).flatten,
       q.dropWhile (fun batch => batchKey batch ≤ maxBlockNum))

/-- Wrapping uint64 subtraction, as in
`m.LatestBlock().NumberU64() - uint64(m.options.TrailNumBlocksBehindHead)`
(ethmonitor.go:509). -/
def sub64 (a k : Nat) : Nat :=
  (2 ^ 64 + a % 2 ^ 64 - k % 2 ^ 64) % 2 ^ 64

/-- `Monitor.publish` (ethmonitor.go:505-525).  `headNum` is
`m.LatestBlock().NumberU64()` at the moment of the call.  With a positive
trail option the dequeue threshold is the uint64 difference
`headNum - trail`; otherwise it stays 0.  The batch is enqueued (a failure
propagates, `ErrQueueFull`) and then releasable batches are dequeued; the
released concatenation is handed to the broadcast goroutine over
`publishCh`. -/
def publish (o : Options) (headNum : Nat) (q : List (List Block))
    (batch : List Block) :
    Except Unit (Option (List Block) × List (List Block)) :=
  match enqueue (queueCapacity o) q batch with
  | Except.error e => Except.error e
  | Except.ok q1 =>
      Except.ok (dequeue q1
        (if 0 < o.trailNumBlocksBehindHead then sub64 headNum o.trailNumBlocksBehindHead else 0))

/-- The mutable state of the monitor loop (ethmonitor.go:214-282): the
chain cache, the `events` sink, the publish queue, and the adaptive poll
interval (in the same units as `Options.pollingInterval`). -/
structure MonState where
  chain : List Block
  events : List Block
  queue : List (List Block)
  pollInterval : Nat
deriving DecidableEq

/-- Outcome of `fetchBlockByNumber` as seen by the monitor loop:
`ethereum.NotFound`, any other error (including `ErrMaxAttempts`), or the
fetched block. -/
inductive FetchResult where
  | notFound
  | fetchErr
  | found (b : RawBlock)
deriving DecidableEq

/-- Result of one iteration of the monitor run loop.  `next` carries the
new state, the batch enqueued on the publish queue this iteration (if the
iteration published), and the released concatenation handed to the
broadcast goroutine (if any).  `fatal` models the loop returning
`superr.New(ErrFatal, err)` from `Run` (ethmonitor.go:271-276); the only
error `publish` can produce is the queue-full error of `enqueue`. -/
inductive StepOutcome where
  | next (s : MonState) (enqueued : Option (List Block)) (released : Option (List Block))
  | fatal
deriving DecidableEq

/-- `m.LatestBlock().NumberU64()`: the number of the newest retained
block.  In `publish` the chain is never empty (a successful
`buildCanonicalChain` has just pushed a block). -/
def chainHeadNum (c : List Block) : Nat :=
  match c.getLast? with
  | some b => b.raw.number
  | none => 0

/-- The publishing tail of a successful loop iteration
(ethmonitor.go:260-279): attach or nil logs on the batch, publish it
(fatal on failure), and clear the events sink.  `c'` and `evs'` are the
chain and event sink returned by the successful `buildCanonicalChain`. -/
def monitorPublish (o : Options) (logsOf : Nat → Option (List Nat)) (s : MonState)
    (c' evs' : List Block) : StepOutcome :=
  match publish o (chainHeadNum c') s.queue (processEvents o.withLogs logsOf evs') with
  | Except.error _ => StepOutcome.fatal
  | Except.ok (released, q') =>
      StepOutcome.next
        { chain := c', events := [], queue := q', pollInterval := s.pollInterval / 2 }
        (some (processEvents o.withLogs logsOf evs')) released

/-- The successful-fetch arm of the loop (ethmonitor.go:246-279): halve
the poll interval, rebuild the canonical chain (keeping the partial event
sink and retrying on failure), then publish. -/
def monitorStepFound (o : Options) (prov : Nat → Option RawBlock)
    (logsOf : Nat → Option (List Nat)) (fuel : Nat) (s : MonState)
    (nextBlock : RawBlock) : StepOutcome :=
  match buildCanonicalChain prov (effectiveRetention o) fuel s.chain nextBlock s.events with
  | (c', evs', some _) =>
      StepOutcome.next
        { s with chain := c', events := evs', pollInterval := s.pollInterval / 2 } none none
  | (c', evs', none) => monitorPublish o logsOf s c' evs'

/-- One iteration of the monitor run loop (ethmonitor.go:222-280), with
the fetch outcome supplied as an oracle.  On `NotFound` or a fetch error
the poll interval is reset to the configured `PollingInterval` and the
iteration ends; on success the iteration continues in
`monitorStepFound`. -/
def monitorStep (o : Options) (prov : Nat → Option RawBlock)
    (logsOf : Nat → Option (List Nat)) (fuel : Nat) (s : MonState) :
    FetchResult → StepOutcome
  | FetchResult.notFound =>
      StepOutcome.next { s with pollInterval := o.pollingInterval } none none
  | FetchResult.fetchErr =>
      StepOutcome.next { s with pollInterval := o.pollingInterval } none none
  | FetchResult.found nextBlock => monitorStepFound o prov logsOf fuel s nextBlock

/-- The state carried by a non-fatal step outcome. -/
def stateOf : StepOutcome → Option MonState
  | StepOutcome.next s _ _ => some s
  | StepOutcome.fatal => none

/-- The batch enqueued by a step outcome, if the iteration published. -/
def enqueuedOf : StepOutcome → Option (List Block)
  | StepOutcome.next _ e _ => e
  | StepOutcome.fatal => none

/-- The concatenation released to the broadcast goroutine by a step
outcome, if any. -/
def releasedOf : StepOutcome → Option (List Block)
  | StepOutcome.next _ _ r => r
  | StepOutcome.fatal => none

/-- The startup resolution of `m.nextBlockNumber` in `Monitor.Run`
(ethmonitor.go:148-168).  `chainHeadNum?` is the number of the cache head
when the cache is non-empty; `providerLatest` is the number of the block
returned by `m.provider.BlockByNumber(ctx, nil)` (`none` when that call
fails or returns no block — the error is discarded).  A `none` result
means "start from the provider's latest block". -/
def startNextBlockNumber (o : Options) (chainHeadNum? : Option Nat)
    (providerLatest : Option Int) : Option Int :=
  match chainHeadNum? with
  | some h => some ((h : Int) + 1)
  | none =>
    match o.startBlockNumber with
    | some sbn =>
        if 0 ≤ sbn then some sbn
        else
          match providerLatest with
          | some latest =>
              if latest + sbn < 0 then none else some (latest + sbn)
          | none => none
    | none => none

/-- `Monitor.PurgeHistory` (ethmonitor.go:633-641) acting on the retained
block list: when more than one block is retained, the cache is set to
`blocks[1:1]` — the slice from index 1 to index 1. -/
def PurgeHistory (blocks : List Block) : List Block :=
  if 1 < blocks.length then (blocks.drop 1).take 0 else blocks

/-- `Monitor.LatestFinalBlock` (ethmonitor.go:592-604) acting on the
retained block list.  The Go method returns nil when fewer than
`numBlocksToFinality+1` blocks are retained and otherwise indexes
`m.chain.blocks[n-numBlocksToFinality-1]`; an out-of-range index is a
runtime panic, modelled as `Except.error`. -/
def LatestFinalBlock (blocks : List Block) (numBlocksToFinality : Int) :
    Except Unit (Option Block) :=
  if (blocks.length : Int) < numBlocksToFinality + 1 then Except.ok none
  else if (blocks.length : Int) - numBlocksToFinality - 1 < 0 then Except.error ()
  else
    match blocks.get? ((blocks.length : Int) - numBlocksToFinality - 1).toNat with
    | some b => Except.ok (some b)
    | none => Except.error ()

/-- The per-subscription state touched by `unsubscribe`
(ethmonitor.go:545-559): whether the `done` channel and the blocks
channel have been closed. -/
structure Subscriber where
  doneClosed : Bool
  chClosed : Bool
deriving DecidableEq

/-- The `unsubscribe` closure built by `Monitor.Subscribe`
(ethmonitor.go:545-559): it closes `subscriber.done`, closes and flushes
the channel, and removes the subscriber (identified here by `subId`) from
the registry.  `close` of an already-closed Go channel panics, modelled
as `Except.error`: the closure runs `close(subscriber.done)` first, so a
second call faults before reaching the registry. -/
def unsubscribe (subId : Nat) (sub : Subscriber) (registry : List Nat) :
    Except Unit (Subscriber × List Nat) :=
  if sub.doneClosed then Except.error ()
  else Except.ok ({ doneClosed := true, chClosed := true }, registry.erase subId)

/-- Adjacent parent-hash linkage of a block list (each block's parent
hash is the previous block's hash): the "ancestor-first" order of the
Added events of a reorg batch. -/
def chainLinked : List Block → Bool
  | [] => true
  | [_] => true
  | a :: b :: t => (b.raw.parentHash == a.raw.hash) && chainLinked (b :: t)

/-- The identity-relevant part of a block in a batch: its raw block and
its event tag.  Log attachment rewrites `ok` and `logs` but never this
pair. -/
def blockTag (b : Block) : RawBlock × Event :=
  (b.raw, b.event)

instance {ε α : Type} [DecidableEq ε] [DecidableEq α] : DecidableEq (Except ε α) :=
  fun a b =>
    match a, b with
    | Except.ok x, Except.ok y =>
        if h : x = y then isTrue (by rw [h]) else isFalse (by intro hc; cases hc; exact h rfl)
    | Except.error x, Except.error y =>
        if h : x = y then isTrue (by rw [h]) else isFalse (by intro hc; cases hc; exact h rfl)
    | Except.ok _, Except.error _ => isFalse (by intro hc; cases hc)
    | Except.error _, Except.ok _ => isFalse (by intro hc; cases hc)

/- Concrete fixtures used by the witnesses and counterexamples below: a
two-block chain [A, B] at numbers 100, 101, a competing block B2 at
number 101 on a different hash, and its child C at number 102. -/

def rbA : RawBlock := ⟨100, 10, 9, true⟩

def rbB : RawBlock := ⟨101, 20, 10, true⟩

def rbB2 : RawBlock := ⟨101, 21, 10, true⟩

def rbC : RawBlock := ⟨102, 40, 21, true⟩

def blkA : Block := { raw := rbA, event := Event.Added, ok := true, logs := none }

/-- Block B as it sits in the cache after a `WithLogs` iteration attached
logs to it. -/
def blkB : Block := { raw := rbB, event := Event.Added, ok := true, logs := some [5] }

/-- A provider whose canonical chain is A ← B2 ← C: `BlockByHash`
resolves only B2's hash. -/
def provReorg : Nat → Option RawBlock :=
  fun h => if h = 21 then some rbB2 else none

/-- A provider that resolves no hash. -/
def provNone : Nat → Option RawBlock := fun _ => none

/-- A `FilterLogs` oracle that always succeeds with an empty log list. -/
def logsEmpty : Nat → Option (List Nat) := fun _ => some []

def optsLogs : Options := ⟨1000, none, false, 0, 200, true⟩

def optsPlain : Options := ⟨1000, none, false, 0, 200, false⟩

def optsTrail1 : Options := ⟨1000, none, false, 1, 200, false⟩

def optsNegStart : Options := ⟨1000, some (-10), false, 0, 200, false⟩

/-- Options with `BlockRetentionLimit = 0`, giving a publish queue of
capacity 0. -/
def optsTiny : Options := ⟨1000, none, false, 0, 0, false⟩

/-- Raw block number 1. -/
def rbOne : RawBlock := ⟨1, 11, 10, true⟩

/-- Block number 1 as first pushed by the monitor. -/
def blkOne : Block := mkAdded rbOne

def stReorg : MonState := { chain := [blkA, blkB], events := [], queue := [], pollInterval := 16 }

/-- The reorg state with a leftover event from a previous failed
`buildCanonicalChain` attempt in the sink. -/
def stStale : MonState :=
  { chain := [blkA, blkB], events := [toRemoved blkA], queue := [], pollInterval := 16 }

def stOne : MonState := { chain := [], events := [], queue := [], pollInterval := 1 }

/-- The batch the monitor publishes from `stStale` on the B → B2 reorg. -/
def batchStale : List Block :=
  [toRemoved blkA, toRemoved blkB,
   { raw := rbB2, event := Event.Added, ok := true, logs := some [] },
   { raw := rbC, event := Event.Added, ok := true, logs := some [] }]

/-- The monitor state after the `stStale` iteration. -/
def stStale2 : MonState :=
  { chain := [blkA, mkAdded rbB2, mkAdded rbC], events := [], queue := [], pollInterval := 8 }

lemma mem_le_batchKey (batch : List Block) (b : Block) (hb : b ∈ batch) :
    b.raw.number ≤ batchKey batch := by
  induction batch with
  | nil => cases hb
  | cons a t ih =>
      rcases List.mem_cons.mp hb with h | h
      · subst h
        exact Nat.le_max_left _ _
      · exact Nat.le_trans (ih h) (Nat.le_max_right _ _)

lemma sub64_eq_sub (a k : Nat) (hk : k ≤ a) (ha : a < 2 ^ 64) : sub64 a k = a - k := by
  unfold sub64
  omega

lemma chainLinked_concat (qs : List Block) (q b : Block)
    (h1 : chainLinked qs = true) (h2 : qs.getLast? = some q)
    (h3 : b.raw.parentHash = q.raw.hash) : chainLinked (qs ++ [b]) = true := by
  induction qs with
  | nil => cases h2
  | cons a t ih =>
      cases t with
      | nil =>
          simp only [List.getLast?_singleton, Option.some.injEq] at h2
          subst h2
          simp [chainLinked, h3]
      | cons c t2 =>
          have h1' := (Bool.and_eq_true _ _).mp h1
          have h2' : (c :: t2).getLast? = some q := by
            simpa using h2
          have := ih h1'.2 h2'
          simp only [List.cons_append, chainLinked, Bool.and_eq_true]
          constructor
          · exact h1'.1
          · simpa using this

lemma build_events_extend (prov : Nat → Option RawBlock) (retention : Nat) :
    ∀ (fuel : Nat) (c : List Block) (next : RawBlock) (acc c' evs : List Block)
      (e : Option BuildErr),
    buildCanonicalChain prov retention fuel c next acc = (c', evs, e) →
    acc <+: evs := by
  intro fuel
  induction fuel with
  | zero =>
      intro c next acc c' evs e h
      rw [buildCanonicalChain] at h
      cases h
      exact List.prefix_rfl
  | succ fuel ih =>
      intro c next acc c' evs e h
      rw [buildCanonicalChain] at h
      split at h
      · split at h <;> (cases h; exact List.prefix_append _ _)
      · split at h
        · split at h <;> (cases h; exact List.prefix_append _ _)
        · split at h
          · cases h
            exact List.prefix_append _ _
          · split at h
            · rename_i c2 evs2 e2 hrec
              cases h
              exact (List.prefix_append _ _).trans (ih _ _ _ _ _ _ hrec)
            · rename_i c2 evs2 hrec
              split at h <;> cases h
              · exact (List.prefix_append _ _).trans (ih _ _ _ _ _ _ hrec)
              · exact ((List.prefix_append _ _).trans (ih _ _ _ _ _ _ hrec)).trans
                  (List.prefix_append _ _)

lemma build_ok_structure (prov : Nat → Option RawBlock) (retention : Nat)
    (hprov : ∀ h rb, prov h = some rb → rb.hash = h) :
    ∀ (fuel : Nat) (c : List Block) (next : RawBlock) (acc c' evs : List Block),
    buildCanonicalChain prov retention fuel c next acc = (c', evs, none) →
    ∃ k qs, k ≤ c.length ∧
      evs = acc ++ (c.reverse.take k).map toRemoved ++ qs ∧
      qs.length = k + 1 ∧
      (∀ b ∈ qs, b.event = Event.Added) ∧
      chainLinked qs = true ∧
      qs.getLast?.map Block.raw = some next := by
  intro fuel
  induction fuel with
  | zero =>
      intro c next acc c' evs h
      rw [buildCanonicalChain] at h
      simp at h
  | succ fuel ih =>
      intro c next acc c' evs h
      rw [buildCanonicalChain] at h
      split at h
      · split at h
        · cases h
          refine ⟨0, [mkAdded next], Nat.zero_le _, by simp, rfl, ?_, rfl, by simp [mkAdded]⟩
          intro b hb
          simp only [List.mem_singleton] at hb
          simp [hb, mkAdded]
        · simp at h
      · split at h
        · split at h
          · cases h
            refine ⟨0, [mkAdded next], Nat.zero_le _, by simp, rfl, ?_, rfl, by simp [mkAdded]⟩
            intro b hb
            simp only [List.mem_singleton] at hb
            simp [hb, mkAdded]
          · simp at h
        · split at h
          · simp at h
          · rename_i headBlock heq1 hpar hOpt parent hprovEq
            split at h
            · simp at h
            · rename_i c2 evs2 hrec
              split at h
              · simp at h
              · cases h
                obtain ⟨k1, qs1, hk1, hevs2, hlen1, hadd1, hlink1, hlast1⟩ :=
                  ih c.dropLast parent (acc ++ [toRemoved headBlock]) c2 evs2 hrec
                have hne : c ≠ [] := by
                  intro hnil
                  rw [hnil] at heq1
                  cases heq1
                have hgl : c.getLast hne = headBlock := by
                  rw [List.getLast?_eq_getLast_of_ne_nil hne] at heq1
                  injection heq1
                have hcrev : c.reverse = headBlock :: c.dropLast.reverse := by
                  conv_lhs => rw [← List.dropLast_append_getLast hne, hgl]
                  exact List.reverse_concat' _ _
                obtain ⟨qlast, hql, hqlraw⟩ : ∃ q, qs1.getLast? = some q ∧ q.raw = parent := by
                  rcases hq : qs1.getLast? with _ | q
                  · rw [hq] at hlast1
                    cases hlast1
                  · rw [hq] at hlast1
                    exact ⟨q, rfl, by injection hlast1⟩
                have hphash : parent.hash = next.parentHash := hprov _ _ hprovEq
                refine ⟨k1 + 1, qs1 ++ [mkAdded next], ?_, ?_, ?_, ?_, ?_, ?_⟩
                · have h1 : c.dropLast.length = c.length - 1 := List.length_dropLast c
                  have h2 : 0 < c.length := List.length_pos.mpr hne
                  omega
                · rw [hevs2, hcrev]
                  simp [List.append_assoc]
                · simp [hlen1]
                · intro b hb
                  rcases List.mem_append.mp hb with hb1 | hb1
                  · exact hadd1 b hb1
                  · simp only [List.mem_singleton] at hb1
                    simp [hb1, mkAdded]
                · refine chainLinked_concat qs1 qlast (mkAdded next) hlink1 hql ?_
                  rw [hqlraw]
                  simp [mkAdded, hphash]
                · rw [List.getLast?_concat]
                  simp [mkAdded]

lemma blockTag_addLogsBlock (logsOf : Nat → Option (List Nat)) (b : Block) :
    blockTag (addLogsBlock logsOf b) = blockTag b := by
  unfold addLogsBlock
  split
  · rfl
  · split
    · rfl
    · split
      · split <;> rfl
      · rfl

lemma processEvents_map_blockTag (withLogs : Bool) (logsOf : Nat → Option (List Nat))
    (events : List Block) :
    (processEvents withLogs logsOf events).map blockTag = events.map blockTag := by
  unfold processEvents
  split
  · rw [List.map_map]
    exact List.map_congr_left (fun b _ => blockTag_addLogsBlock logsOf b)
  · rw [List.map_map]
    exact List.map_congr_left (fun b _ => rfl)

/-- C2: for every reorg resolved by a successful `buildCanonicalChain`
run starting from an empty event sink, the emitted batch is exactly the
k popped blocks as Removed events in pop order (newest first, i.e. the
first k elements of the reversed cache) followed by k+1 Added events
forming a parent-linked chain in ancestor-first order whose last element
is the fetched head block.  The provider is assumed hash-consistent:
`BlockByHash(h)` returns a block whose hash is `h`. -/
theorem buildCanonicalChain_reorg_batch
    (prov : Nat → Option RawBlock) (retention fuel : Nat) (c : List Block)
    (next : RawBlock) (c' evs : List Block)
    (hprov : ∀ h rb, prov h = some rb → rb.hash = h)
    (hbuild : buildCanonicalChain prov retention fuel c next [] = (c', evs, none)) :
    ∃ k qs, k ≤ c.length ∧
      evs = (c.reverse.take k).map toRemoved ++ qs ∧
      qs.length = k + 1 ∧
      (∀ b ∈ qs, b.event = Event.Added) ∧
      chainLinked qs = true ∧
      qs.getLast?.map Block.raw = some next := by
  obtain ⟨k, qs, h1, h2, h3, h4, h5, h6⟩ :=
    build_ok_structure prov retention hprov fuel c next [] c' evs hbuild
  exact ⟨k, qs, h1, by simpa using h2, h3, h4, h5, h6⟩

/-- Witness for C2: the depth-1 reorg [A, B] → [A, B2, C] emits
[Removed(B), Added(B2), Added(C)]. -/
theorem buildCanonicalChain_reorg_batch_witness :
    ∃ k qs, k ≤ ([blkA, blkB] : List Block).length ∧
      [toRemoved blkB, mkAdded rbB2, mkAdded rbC] =
        (([blkA, blkB] : List Block).reverse.take k).map toRemoved ++ qs ∧
      qs.length = k + 1 ∧
      (∀ b ∈ qs, b.event = Event.Added) ∧
      chainLinked qs = true ∧
      qs.getLast?.map Block.raw = some rbC := by
  refine buildCanonicalChain_reorg_batch provReorg 201 5 [blkA, blkB] rbC
    [blkA, mkAdded rbB2, mkAdded rbC] [toRemoved blkB, mkAdded rbB2, mkAdded rbC] ?_ (by decide)
  intro h rb hrb
  unfold provReorg at hrb
  split at hrb
  · rename_i hh
    cases hrb
    simp [rbB2, hh]
  · cases hrb

/-- C9: the monitor loop clears its events sink only after a successful
publish.  For every non-fatal loop iteration: when the iteration does not
publish (NotFound, fetch error, or build failure) the previous sink is a
prefix of the new sink (build failures return the extended partial event
list, which is kept); when it publishes, the enqueued batch carries the
previous sink's events — their raw blocks and event tags — as a prefix,
and the sink is cleared. -/
theorem events_sink_preserved
    (o : Options) (prov : Nat → Option RawBlock) (logsOf : Nat → Option (List Nat))
    (fuel : Nat) (s : MonState) (fr : FetchResult) (s' : MonState)
    (enq rel : Option (List Block))
    (hstep : monitorStep o prov logsOf fuel s fr = StepOutcome.next s' enq rel) :
    (enq = none → s.events <+: s'.events) ∧
    (∀ batch, enq = some batch → s'.events = [] ∧
      s.events.map blockTag <+: batch.map blockTag) := by
  cases fr with
  | notFound =>
      rw [monitorStep] at hstep
      cases hstep
      exact ⟨fun _ => List.prefix_rfl, fun batch hb => by cases hb⟩
  | fetchErr =>
      rw [monitorStep] at hstep
      cases hstep
      exact ⟨fun _ => List.prefix_rfl, fun batch hb => by cases hb⟩
  | found nb =>
      rw [monitorStep] at hstep
      unfold monitorStepFound at hstep
      rcases hrec : buildCanonicalChain prov (effectiveRetention o) fuel s.chain nb s.events
        with ⟨c2, evs2, e2⟩
      rw [hrec] at hstep
      cases e2 with
      | some e3 =>
          cases hstep
          refine ⟨fun _ => ?_, fun batch hb => by cases hb⟩
          exact build_events_extend prov (effectiveRetention o) fuel s.chain nb s.events
            c2 evs2 (some e3) hrec
      | none =>
          change monitorPublish o logsOf s c2 evs2 = StepOutcome.next s' enq rel at hstep
          unfold monitorPublish at hstep
          rcases hpub : publish o (chainHeadNum c2) s.queue (processEvents o.withLogs logsOf evs2)
            with e4 | ⟨released, q2⟩
          · rw [hpub] at hstep
            cases hstep
          · rw [hpub] at hstep
            cases hstep
            constructor
            · intro hn
              cases hn
            · intro batch hb
              cases hb
              refine ⟨rfl, ?_⟩
              rw [processEvents_map_blockTag]
              exact (build_events_extend prov (effectiveRetention o) fuel s.chain nb s.events
                c2 evs2 none hrec).map blockTag

/-- Witness for C9: from a state whose sink holds a leftover Removed(A)
event of a failed attempt, the published batch starts with that event. -/
theorem events_sink_preserved_witness :
    stStale2.events = [] ∧ stStale.events.map blockTag <+: batchStale.map blockTag := by
  have h := events_sink_preserved optsLogs provReorg logsEmpty 5 stStale
    (FetchResult.found rbC) stStale2 (some batchStale) (some batchStale) (by decide)
  exact h.2 batchStale rfl

/-- C3 (amended): in the monitor loop, NotFound and fetch errors reset
the poll interval to the configured `PollingInterval`; a successful fetch
halves it by integer division — with no lower bound, so it can reach 0. -/
theorem adaptive_cadence
    (o : Options) (prov : Nat → Option RawBlock) (logsOf : Nat → Option (List Nat))
    (fuel : Nat) (s : MonState) (s' : MonState) (enq rel : Option (List Block)) :
    (monitorStep o prov logsOf fuel s FetchResult.notFound = StepOutcome.next s' enq rel →
        s'.pollInterval = o.pollingInterval) ∧
    (monitorStep o prov logsOf fuel s FetchResult.fetchErr = StepOutcome.next s' enq rel →
        s'.pollInterval = o.pollingInterval) ∧
    (∀ nb, monitorStep o prov logsOf fuel s (FetchResult.found nb) = StepOutcome.next s' enq rel →
        s'.pollInterval = s.pollInterval / 2) := by
  refine ⟨fun h => ?_, fun h => ?_, fun nb h => ?_⟩
  · rw [monitorStep] at h
    cases h
    rfl
  · rw [monitorStep] at h
    cases h
    rfl
  · rw [monitorStep] at h
    unfold monitorStepFound at h
    rcases hrec : buildCanonicalChain prov (effectiveRetention o) fuel s.chain nb s.events
      with ⟨c2, evs2, e2⟩
    rw [hrec] at h
    cases e2 with
    | some e3 =>
        cases h
        rfl
    | none =>
        change monitorPublish o logsOf s c2 evs2 = StepOutcome.next s' enq rel at h
        unfold monitorPublish at h
        rcases hpub : publish o (chainHeadNum c2) s.queue (processEvents o.withLogs logsOf evs2)
          with e4 | ⟨released, q2⟩
        · rw [hpub] at h
          cases h
        · rw [hpub] at h
          cases h
          rfl

/-- Witness for C3: a NotFound iteration resets the interval to the
configured 1000 units. -/
theorem adaptive_cadence_witness :
    ({ stOne with pollInterval := 1000 } : MonState).pollInterval = optsPlain.pollingInterval :=
  (adaptive_cadence optsPlain provNone logsEmpty 5 stOne
    { stOne with pollInterval := 1000 } none none).1 (by decide)

/-- Counterexample to C3 as stated: an iteration that successfully
fetches block 1 from interval 1 halves the interval to 0, below one time
unit — the code has no lower bound on `pollInterval /= 2`. -/
theorem pollInterval_halves_to_zero :
    (stateOf (monitorStep optsPlain provNone logsEmpty 5 stOne
        (FetchResult.found rbOne))).map MonState.pollInterval = some 0 ∧
    (0 : Nat) < 1 := by
  decide

/-- C5: a monitor-loop iteration terminates `Run` (with the
`ErrFatal`-wrapped publish error, outcome `fatal`) exactly when the fetch
succeeded, `buildCanonicalChain` succeeded, and the publish queue was at
capacity so that `enqueue` failed with `ErrQueueFull`; NotFound, fetch
errors and build failures always continue the loop. -/
theorem fatal_iff_queue_full
    (o : Options) (prov : Nat → Option RawBlock) (logsOf : Nat → Option (List Nat))
    (fuel : Nat) (s : MonState) (fr : FetchResult) :
    monitorStep o prov logsOf fuel s fr = StepOutcome.fatal ↔
      ∃ nb, fr = FetchResult.found nb ∧
        (buildCanonicalChain prov (effectiveRetention o) fuel s.chain nb s.events).2.2 = none ∧
        queueCapacity o ≤ s.queue.length := by
  constructor
  · intro h
    cases fr with
    | notFound =>
        rw [monitorStep] at h
        cases h
    | fetchErr =>
        rw [monitorStep] at h
        cases h
    | found nb =>
        refine ⟨nb, rfl, ?_⟩
        rw [monitorStep] at h
        unfold monitorStepFound at h
        rcases hrec : buildCanonicalChain prov (effectiveRetention o) fuel s.chain nb s.events
          with ⟨c2, evs2, e2⟩
        rw [hrec] at h
        cases e2 with
        | some e3 => cases h
        | none =>
            refine ⟨rfl, ?_⟩
            change monitorPublish o logsOf s c2 evs2 = StepOutcome.fatal at h
            unfold monitorPublish at h
            rcases hpub : publish o (chainHeadNum c2) s.queue
                (processEvents o.withLogs logsOf evs2) with e4 | ⟨released, q2⟩
            · unfold publish at hpub
              by_cases hcap : queueCapacity o ≤ s.queue.length
              · exact hcap
              · unfold enqueue at hpub
                rw [if_neg hcap] at hpub
                cases hpub
            · rw [hpub] at h
              cases h
  · rintro ⟨nb, rfl, hbuild, hcap⟩
    rw [monitorStep]
    unfold monitorStepFound
    rcases hrec : buildCanonicalChain prov (effectiveRetention o) fuel s.chain nb s.events
      with ⟨c2, evs2, e2⟩
    rw [hrec] at hbuild
    have he2 : e2 = none := hbuild
    subst he2
    change monitorPublish o logsOf s c2 evs2 = StepOutcome.fatal
    have hpub : publish o (chainHeadNum c2) s.queue (processEvents o.withLogs logsOf evs2) =
        Except.error () := by
      unfold publish enqueue
      rw [if_pos hcap]
    unfold monitorPublish
    rw [hpub]

/-- Witness for C5: with a capacity-0 publish queue
(`BlockRetentionLimit = 0`) the first publishing iteration is fatal. -/
theorem fatal_iff_queue_full_witness :
    monitorStep optsTiny provNone logsEmpty 5 stOne (FetchResult.found rbOne) =
      StepOutcome.fatal :=
  (fatal_iff_queue_full optsTiny provNone logsEmpty 5 stOne (FetchResult.found rbOne)).mpr
    ⟨rbOne, rfl, by decide, by decide⟩

/-- C4 (amended): every block of a processed batch whose event is
Removed has `ok = true`; and when `WithLogs = false` its logs are nil.
(With `WithLogs = true` a removed block keeps whatever logs it carried
while it was cached — see the counterexample.) -/
theorem removed_blocks_ok
    (withLogs : Bool) (logsOf : Nat → Option (List Nat)) (events : List Block)
    (b : Block) (hb : b ∈ processEvents withLogs logsOf events)
    (hev : b.event = Event.Removed) :
    b.ok = true ∧ (withLogs = false → b.logs = none) := by
  unfold processEvents at hb
  cases withLogs with
  | false =>
      simp only [Bool.false_eq_true, if_false] at hb
      obtain ⟨a, ha, rfl⟩ := List.mem_map.mp hb
      exact ⟨rfl, fun _ => rfl⟩
  | true =>
      simp only [if_true] at hb
      obtain ⟨a, ha, rfl⟩ := List.mem_map.mp hb
      have hevent : (addLogsBlock logsOf a).event = a.event :=
        congrArg Prod.snd (blockTag_addLogsBlock logsOf a)
      refine ⟨?_, fun hfalse => nomatch hfalse⟩
      by_cases hok : a.ok = true
      · unfold addLogsBlock
        rw [if_pos hok]
        exact hok
      · have hrem : a.event = Event.Removed := by
          rw [← hevent]
          exact hev
        unfold addLogsBlock
        rw [if_neg hok, if_pos hrem]

/-- Witness for C4: a removed block that was cached with logs passes
through log processing with `ok = true`. -/
theorem removed_blocks_ok_witness :
    (toRemoved blkB).ok = true ∧ (true = false → (toRemoved blkB).logs = none) :=
  removed_blocks_ok true logsEmpty [toRemoved blkB] (toRemoved blkB) (by decide) (by decide)

/-- Counterexample to C4 as stated: with `WithLogs = true`, the B → B2
reorg iteration broadcasts a batch whose Removed(B) entry still carries
the logs B had while it was cached — a Removed block with non-nil logs. -/
theorem removed_block_carries_logs :
    (releasedOf (monitorStep optsLogs provReorg logsEmpty 5 stReorg
        (FetchResult.found rbC))).map
      (fun rel => rel.any (fun b => decide (b.event = Event.Removed ∧ b.logs ≠ none))) =
      some true := by
  decide

/-- C1 (amended): with `TrailNumBlocksBehindHead = k > 0`, whenever the
cache head number strictly exceeds k at the moment of publication (so
that the uint64 threshold `head − k` neither wraps around nor hits the
"release the oldest batch" 0 sentinel of `dequeue`), every block of the
released concatenation has number at most `head − k`. -/
theorem publish_trail_bound
    (o : Options) (headNum : Nat) (q : List (List Block)) (batch : List Block)
    (rel : List Block) (q' : List (List Block)) (b : Block)
    (htrail : 0 < o.trailNumBlocksBehindHead)
    (hlt : o.trailNumBlocksBehindHead < headNum)
    (hmax : headNum < 2 ^ 64)
    (hpub : publish o headNum q batch = Except.ok (some rel, q'))
    (hb : b ∈ rel) :
    b.raw.number ≤ headNum - o.trailNumBlocksBehindHead := by
  unfold publish at hpub
  rcases henq : enqueue (queueCapacity o) q batch with e | q1
  · rw [henq] at hpub
    cases hpub
  · rw [henq] at hpub
    rw [if_pos htrail] at hpub
    rw [sub64_eq_sub _ _ (Nat.le_of_lt hlt) hmax] at hpub
    have hdq : dequeue q1 (headNum - o.trailNumBlocksBehindHead) = (some rel, q') := by
      injection hpub
    unfold dequeue at hdq
    rw [if_neg (by omega : ¬ headNum - o.trailNumBlocksBehindHead = 0)] at hdq
    split at hdq
    · exfalso
      have hfst := congrArg Prod.fst hdq
      simp at hfst
    · cases hdq
      obtain ⟨bb, hbbmem, hbbin⟩ := List.mem_flatten.mp hb
      have hkey := List.mem_takeWhile_imp hbbmem
      exact Nat.le_trans (mem_le_batchKey bb b hbbin) (of_decide_eq_true hkey)

/-- Witness for C1: with trail 1 and head number 3, the released batch
containing block 1 satisfies the bound 1 ≤ 3 − 1. -/
theorem publish_trail_bound_witness :
    blkOne.raw.number ≤ 3 - optsTrail1.trailNumBlocksBehindHead :=
  publish_trail_bound optsTrail1 3 [] [blkOne] [blkOne] [] blkOne
    (by decide) (by decide) (by decide) (by decide) (by decide)

/-- Counterexample to C1 as stated: with trail k = 1 and cache head
number 1 (head number equal to k), `maxBlockNum` computes to 0, which is
the unconditional "release the oldest batch" sentinel of `dequeue`: the
batch holding Added block 1 is broadcast although its number 1 exceeds
`head − k = 0`. -/
theorem trail_bound_fails_at_head_eq_trail :
    publish optsTrail1 1 [] [blkOne] = Except.ok (some [blkOne], []) ∧
    blkOne.event = Event.Added ∧
    (1 : Int) - (optsTrail1.trailNumBlocksBehindHead : Int) < (blkOne.raw.number : Int) := by
  decide

/-- C6 (amended): with an empty cache and a negative `StartBlockNumber`,
the next block number is `providerHead + StartBlockNumber` when that sum
is non-negative; when the sum is negative it is set to nil ("start from
latest"), not clamped to 0. -/
theorem startNextBlockNumber_negative
    (o : Options) (latest sbn : Int)
    (hsbn : o.startBlockNumber = some sbn) (hneg : sbn < 0) :
    startNextBlockNumber o none (some latest) =
      if latest + sbn < 0 then none else some (latest + sbn) := by
  unfold startNextBlockNumber
  rw [hsbn]
  change (if 0 ≤ sbn then some sbn
      else if latest + sbn < 0 then none else some (latest + sbn)) =
      if latest + sbn < 0 then none else some (latest + sbn)
  rw [if_neg (by omega : ¬ (0 ≤ sbn))]

/-- Witness for C6: provider head 100 with `StartBlockNumber = -10`
probes block 90 next. -/
theorem startNextBlockNumber_negative_witness :
    startNextBlockNumber optsNegStart none (some 100) = some 90 :=
  (startNextBlockNumber_negative optsNegStart 100 (-10) rfl (by decide)).trans (by decide)

/-- Counterexample to C6 as stated: provider head 5 with
`StartBlockNumber = -10` yields nil (start from latest), not the claimed
clamp to block 0. -/
theorem start_negative_not_clamped :
    startNextBlockNumber optsNegStart none (some 5) = none ∧
    startNextBlockNumber optsNegStart none (some 5) ≠ some 0 := by
  decide

/-- C7: `PurgeHistory` on a two-block cache leaves the cache empty
(`blocks[1:1]` is the empty slice), not the single former head block
that both the claim and the function's own doc comment ("clears all but
the head of the chain") describe. -/
theorem PurgeHistory_empties_cache :
    PurgeHistory [blkA, blkB] = [] ∧ PurgeHistory [blkA, blkB] ≠ [blkB] := by
  decide

/-- C8 (amended): the first `unsubscribe()` call closes the channels and
removes the entry from the registry; it is not idempotent — a second
call on the same Subscription faults closing the already-closed `done`
channel. -/
theorem unsubscribe_spec (subId : Nat) (sub : Subscriber) (registry : List Nat) :
    (sub.doneClosed = false →
      unsubscribe subId sub registry =
        Except.ok ({ doneClosed := true, chClosed := true }, registry.erase subId)) ∧
    (sub.doneClosed = true → unsubscribe subId sub registry = Except.error ()) := by
  constructor
  · intro h
    unfold unsubscribe
    rw [if_neg (by simp [h])]
  · intro h
    unfold unsubscribe
    rw [if_pos h]

/-- Witness for C8: a fresh subscription unsubscribes cleanly and leaves
the registry without its entry. -/
theorem unsubscribe_spec_witness :
    unsubscribe 7 ⟨false, false⟩ [7, 8] = Except.ok (⟨true, true⟩, [8]) :=
  ((unsubscribe_spec 7 ⟨false, false⟩ [7, 8]).1 rfl).trans (by decide)

/-- Counterexample to C8 as stated: the first call succeeds, but the
second call on the now-closed subscription faults (`close` of a closed
channel panics) instead of having no effect. -/
theorem unsubscribe_second_call_faults :
    unsubscribe 0 ⟨false, false⟩ [0] = Except.ok (⟨true, true⟩, []) ∧
    unsubscribe 0 ⟨true, true⟩ [] = Except.error () := by
  decide

/-- C10: `LatestFinalBlock` with a non-negative finality depth returns
nil when fewer than `numBlocksToFinality + 1` blocks are retained and
otherwise the in-bounds element at index
`n - numBlocksToFinality - 1`; with a negative depth on a non-empty
cache the index is out of range (a runtime panic, `Except.error`). -/
theorem LatestFinalBlock_spec (blocks : List Block) (f : Int) :
    (0 ≤ f → (blocks.length : Int) < f + 1 → LatestFinalBlock blocks f = Except.ok none) ∧
    (0 ≤ f → f + 1 ≤ (blocks.length : Int) →
      LatestFinalBlock blocks f = Except.ok (blocks.get? (blocks.length - (f.toNat + 1))) ∧
      (blocks.get? (blocks.length - (f.toNat + 1))).isSome = true) ∧
    (f < 0 → blocks ≠ [] → LatestFinalBlock blocks f = Except.error ()) := by
  refine ⟨fun hf hlen => ?_, fun hf hlen => ?_, fun hf hne => ?_⟩
  · unfold LatestFinalBlock
    rw [if_pos hlen]
  · unfold LatestFinalBlock
    rw [if_neg (by omega), if_neg (by omega)]
    have hidx : ((blocks.length : Int) - f - 1).toNat = blocks.length - (f.toNat + 1) := by
      omega
    rw [hidx]
    have hlt : blocks.length - (f.toNat + 1) < blocks.length := by omega
    rw [List.get?_eq_get hlt]
    exact ⟨rfl, rfl⟩
  · have hlenpos : 0 < blocks.length := List.length_pos.mpr hne
    unfold LatestFinalBlock
    rw [if_neg (by omega), if_neg (by omega)]
    have hge : blocks.length ≤ ((blocks.length : Int) - f - 1).toNat := by omega
    rw [List.get?_eq_none.mpr hge]

/-- Witness for C10: on the two-block cache with finality depth 1 the
final block is A, the element at index 0. -/
theorem LatestFinalBlock_spec_witness :
    LatestFinalBlock [blkA, blkB] 1 = Except.ok (some blkA) := by
  have h := ((LatestFinalBlock_spec [blkA, blkB] 1).2.1 (by decide) (by decide)).1
  exact h.trans (by decide)

end Ethmonitor
